import Mathlib

/-!
Verification development for the GPU-profiler display-data pipeline
(`src/analyser/gpu_bar_analyzer.py` and its near-duplicate
`src/analyser/gpu_profiler_analyzer.py`).

The core under study is `prepare_display_data` (selection directives,
color resolution, percentage normalization) together with the slot
ordering performed by `create_academic_bar_chart` /
`create_academic_pie_chart` before rendering.

Modelling conventions:
* Percentages are embedded as exact rationals (`ℚ`).  Python's
  `round(x, 1)` (round-half-even on binary floats) is idealized as
  rounding to the nearest multiple of `1/10`, ties away from the
  half-integer handled by Mathlib's `round` (half up); no claim below
  depends on the tie direction.
* Python exceptions reachable inside `prepare_display_data`
  (`ZeroDivisionError` from `size * 100.0 / total` and `ValueError`
  from `max(sizes)` on an empty list) are embedded as the `Except`
  error branch, making the partial source code a total Lean function.
* Pandas dataframe rows become `KernelRecord`s carrying the already
  mapped `display_name`; the dataframe is assumed sorted by
  percentage descending where a theorem needs it, exactly as
  `create_dataframe` establishes.
-/

/-- A color as the pipeline sees it: either a named entry (hex string
from the Tableau-10 palette, or a user-supplied color string), or a
sample of the `tab20` categorical ramp at parameter `index / total`
(the matplotlib colormap itself is an external collaborator). -/
inductive Color where
  | named (code : String)
  | ramp (index : Nat) (total : Nat)
deriving Repr, DecidableEq

/-- The fixed Tableau-10 palette of `get_academic_colors`
(`gpu_bar_analyzer.py` lines 94-98). -/
def palette : List String :=
  ["#4E79A7", "#F28E2B", "#E15759",
   "#76B7B2", "#59A14F", "#EDC948",
   "#B07AA1", "#FF9DA7", "#9C755F", "#BAB0AC"]

/-- `get_academic_colors` (`gpu_bar_analyzer.py` lines 89-103): the
first `n` palette entries when `n` is at most the palette size, else
one `tab20` ramp sample `i / n` per slot. -/
def get_academic_colors (n : Nat) : List Color :=
  if n ≤ palette.length then (palette.take n).map Color.named
  else (List.range n).map (fun i => Color.ramp i n)

/-- One row of `self.df`: kernel name, mapped display name, and
percentage (`create_dataframe`, lines 69-87). -/
structure KernelRecord where
  name : String
  displayName : String
  percentage : ℚ
deriving Repr, DecidableEq

/-- One entry of the `manual_display` configuration list
(`prepare_display_data`, lines 133-196): the three recognized
directive types with their optional display-name and color fields. -/
inductive Directive where
  | individual (kernel : String) (displayName : Option String) (color : Option Color)
  | merged (kernels : List String) (displayName : Option String) (color : Option Color)
  | others (includeRemaining : Bool) (displayName : Option String) (color : Option Color)
deriving Repr, DecidableEq

/-- The mutable state threaded through the directive loop: the three
parallel lists `labels`, `sizes`, `colors` and the `used_kernels`
set (membership-only, modelled as a list). -/
structure SelState where
  labels : List String
  sizes : List ℚ
  colors : List (Option Color)
  used : List String
deriving Repr, DecidableEq

/-- Exact-name lookup `self.df[self.df['name'] == kernel_name].iloc[0]`
guarded by `kernel_name in self.df['name'].values` (lines 141-142). -/
def lookupRecord (df : List KernelRecord) (k : String) : Option KernelRecord :=
  df.find? (fun r => r.name == k)

/-- The found kernels of a merged directive, in directive order, with
their percentages (lines 165-173): absent names are skipped
individually. -/
def mergedFound (df : List KernelRecord) (ks : List String) : List (String × ℚ) :=
  ks.filterMap (fun k => (lookupRecord df k).map (fun r => (k, r.percentage)))

/-- The default label of an others slot, `f"Others ({n})"`. -/
def othersLabel (n : Nat) : String := "Others (" ++ toString n ++ ")"

/-- The default label of a merged slot, `f"Merged ({n})"`. -/
def mergedLabel (n : Nat) : String := "Merged (" ++ toString n ++ ")"

/-- One iteration of the directive loop of `prepare_display_data`
(`gpu_bar_analyzer.py` lines 133-196).  Note that the `others` branch
(lines 185-196) emits a slot but never adds the remaining kernels to
`used_kernels`. -/
def processItem (df : List KernelRecord) (st : SelState) (d : Directive) : SelState :=
  match d with
  | .individual kernel dispName color =>
    match lookupRecord df kernel with
    | some r =>
      { labels := st.labels ++ [dispName.getD r.displayName]
        sizes := st.sizes ++ [r.percentage]
        colors := st.colors ++ [color]
        used := st.used.insert kernel }
    | none => st
  | .merged kernels dispName color =>
    let found := mergedFound df kernels
    if found.isEmpty then st
    else
      { labels := st.labels ++ [dispName.getD (mergedLabel found.length)]
        sizes := st.sizes ++ [(found.map (fun p => p.2)).sum]
        colors := st.colors ++ [color]
        used := found.foldl (fun u p => u.insert p.1) st.used }
  | .others includeRemaining dispName color =>
    if includeRemaining then
      let remaining := df.filter (fun r => !(st.used.contains r.name))
      if remaining.isEmpty then st
      else
        { labels := st.labels ++ [dispName.getD (othersLabel remaining.length)]
          sizes := st.sizes ++ [(remaining.map (fun r => r.percentage)).sum]
          colors := st.colors ++ [color]
          used := st.used }
    else st

/-- The full directive loop starting from empty lists and an empty
consumed set (lines 125-196). -/
def selectSlots (df : List KernelRecord) (items : List Directive) : SelState :=
  items.foldl (processItem df) ⟨[], [], [], []⟩

/-- The post-hoc unused-kernel diagnostic set
`self.df[~self.df['name'].isin(used_kernels)]` (lines 199-203). -/
def unused_kernels (df : List KernelRecord) (st : SelState) : List KernelRecord :=
  df.filter (fun r => !(st.used.contains r.name))

/-- The color-filling loop of `prepare_display_data` (lines 205-209):
each `None` entry is replaced by the base palette color at the same
positional index. -/
def resolve_colors (colors : List (Option Color)) : List (Option Color) :=
  (List.range colors.length).map (fun i =>
    match colors.getD i none with
    | some c => some c
    | none => (get_academic_colors colors.length).get? i)

/-- Python's `round(q, 1)`: round to one decimal place. -/
def round1 (q : ℚ) : ℚ := (round (10 * q) : ℤ) / 10

/-- The rescaling comprehension
`[size * 100.0 / total for size in sizes]` (line 215). -/
def rescale (sizes : List ℚ) : List ℚ :=
  sizes.map (fun s => s * 100 / sizes.sum)

/-- Rescaled values rounded to one decimal (line 217). -/
def roundedSizes (sizes : List ℚ) : List ℚ :=
  (rescale sizes).map round1

/-- Python's `max` on a nonempty list of rationals ( `max(sizes)` ,
line 224); returns `0` on the empty list, on which Python raises
instead (that error case is handled in `normalizeSizes`). -/
def listMax (l : List ℚ) : ℚ :=
  match l with
  | [] => 0
  | x :: xs => xs.foldl max x

/-- Python's `list.index(v)`: index of the first occurrence of `v`
(returns the length when absent, where Python raises; all uses below
are at members). -/
def firstIdxOf (v : ℚ) : List ℚ → Nat
  | [] => 0
  | x :: xs => if x = v then 0 else firstIdxOf v xs + 1

/-- `sizes.index(max(sizes))` (line 224): first index holding the
maximum original value. -/
def indexOfMax (l : List ℚ) : Nat := firstIdxOf (listMax l) l

/-- The two Python exceptions reachable inside the normalization block
(lines 211-228): `ZeroDivisionError` from `size * 100.0 / total` when
the slot list is nonempty with total `0`, and `ValueError` from
`max(sizes)` when the slot list is empty. -/
inductive NormError where
  | divByZero
  | emptyMax
deriving Repr, DecidableEq

/-- The normalization block of `prepare_display_data` (lines 211-228):
keep the values when the total is within `0.01` of `100`; otherwise
rescale by `100 / total`, round each to one decimal, and when the
rounded total still deviates from `100` by more than `0.05`, add the
difference to the slot at the first index of the pre-rescaling
maximum, re-rounding only that slot. -/
def normalizeSizes (sizes : List ℚ) : Except NormError (List ℚ) :=
  if |sizes.sum - 100| ≤ 1/100 then .ok sizes
  else if sizes.isEmpty then .error .emptyMax
  else if sizes.sum = 0 then .error .divByZero
  else if |(roundedSizes sizes).sum - 100| ≤ 1/20 then .ok (roundedSizes sizes)
  else .ok ((roundedSizes sizes).set (indexOfMax sizes)
      (round1 ((roundedSizes sizes).getD (indexOfMax sizes) 0 + (100 - (roundedSizes sizes).sum))))

/-- The no-directives fallback of `prepare_display_data` (lines
109-123): top 8 rows of the (percentage-descending) dataframe, plus
one others slot exactly when more than 8 rows exist.  The fallback
returns directly at line 123, so its sizes are never normalized. -/
def fallbackDisplay (df : List KernelRecord) :
    List String × List ℚ × List (Option Color) :=
  let top := df.take 8
  let baseLabels := top.map (fun r => r.displayName)
  let baseSizes := top.map (fun r => r.percentage)
  let labels :=
    if 8 < df.length then baseLabels ++ [othersLabel (df.length - 8)] else baseLabels
  let sizes :=
    if 8 < df.length then baseSizes ++ [((df.drop 8).map (fun r => r.percentage)).sum]
    else baseSizes
  (labels, sizes, (get_academic_colors labels.length).map some)

/-- `prepare_display_data` (lines 105-236): fallback when
`manual_display` is empty, else directive processing, positional
color fill, then normalization (whose Python exceptions surface as
the `Except` error branch). -/
def prepare_display_data (df : List KernelRecord) (items : List Directive) :
    Except NormError (List String × List ℚ × List (Option Color)) :=
  match items with
  | [] => .ok (fallbackDisplay df)
  | _ :: _ =>
    let st := selectSlots df items
    match normalizeSizes st.sizes with
    | .ok sizes => .ok (st.labels, sizes, resolve_colors st.colors)
    | .error e => .error e

/-- One renderable slot: label, value, color. -/
structure DSlot where
  label : String
  value : ℚ
  color : Option Color
deriving Repr, DecidableEq

/-- The descending-by-value comparison used by
`combined_data.sort(key=lambda x: x[1], reverse=True)` (line 272). -/
def slotGE (a b : DSlot) : Prop := b.value ≤ a.value

instance : DecidableRel slotGE :=
  fun a b => inferInstanceAs (Decidable (b.value ≤ a.value))

/-- `zip(labels, sizes, final_colors)` (line 271). -/
def zipSlots (labels : List String) (sizes : List ℚ)
    (colors : List (Option Color)) : List DSlot :=
  (labels.zip (sizes.zip colors)).map (fun p => ⟨p.1, p.2.1, p.2.2⟩)

/-- The second color-filling block of both renderers (bar lines
257-266, pie lines 259-268): keep `custom_colors` when nonempty and
fully resolved, else fill positionally from the base palette. -/
def finalColors (labels : List String) (custom : List (Option Color)) :
    List (Option Color) :=
  if (!custom.isEmpty) && custom.all (fun c => c.isSome) then custom
  else (List.range labels.length).map (fun i =>
    match custom.getD i none with
    | some c => some c
    | none => (get_academic_colors labels.length).get? i)

/-- The bar renderer's pre-render reordering (lines 270-273): Python's
stable `list.sort` with `key=lambda x: x[1], reverse=True`.  A stable
descending sort is extensionally unique, and Mathlib's insertion sort
with this relation is exactly that sort. -/
def bar_render_order (slots : List DSlot) : List DSlot :=
  List.insertionSort slotGE slots

/-- The pie renderer passes `sizes` (and the matching labels/colors)
to `ax.pie` in emission order, with no re-sorting
(`gpu_profiler_analyzer.py` lines 282-306). -/
def pie_render_order (slots : List DSlot) : List DSlot := slots

/-- Outcome of a chart call: the early `if not labels` return printing
"No data to display" (bar line 244-246, pie line 246-248), or a chart
built over the given slot sequence. -/
inductive ChartOutcome where
  | noData
  | chart (slots : List DSlot)
deriving Repr, DecidableEq

/-- `create_academic_bar_chart` (lines 238-273) up to the point the
slot sequence is fixed: prepare the data (propagating its exceptions),
stop with "No data to display" on an empty label list, else render the
stably value-sorted slots. -/
def create_academic_bar_chart (df : List KernelRecord) (items : List Directive) :
    Except NormError ChartOutcome :=
  match prepare_display_data df items with
  | .error e => .error e
  | .ok (labels, sizes, colors) =>
    if labels.isEmpty then .ok .noData
    else .ok (.chart (bar_render_order (zipSlots labels sizes (finalColors labels colors))))

/-- `create_academic_pie_chart` (`gpu_profiler_analyzer.py` lines
240-306) up to the point the slot sequence is fixed: identical to the
bar chart except the slots are consumed in emission order. -/
def create_academic_pie_chart (df : List KernelRecord) (items : List Directive) :
    Except NormError ChartOutcome :=
  match prepare_display_data df items with
  | .error e => .error e
  | .ok (labels, sizes, colors) =>
    if labels.isEmpty then .ok .noData
    else .ok (.chart (pie_render_order (zipSlots labels sizes (finalColors labels colors))))

/-- The value sequence of a chart outcome, when one was produced. -/
def outcomeValues : Except NormError ChartOutcome → Option (List ℚ)
  | .ok (.chart s) => some (s.map (fun d => d.value))
  | _ => none

/-- A rational that is an integer number of tenths, i.e. exactly
representable at one decimal place. -/
def IsTenth (q : ℚ) : Prop := ∃ z : ℤ, q = z / 10

/-- The sub-sequence of slots carrying a given value, used to state
stability of the bar renderer's sort. -/
def slotsWithValue (v : ℚ) (l : List DSlot) : List DSlot :=
  l.filter (fun s => decide (s.value = v))

instance : IsTotal DSlot slotGE := ⟨fun a b => le_total b.value a.value⟩

instance : IsTrans DSlot slotGE := ⟨fun _ _ _ hab hbc => le_trans hbc hab⟩

/-- A sample dataframe of ten records, sorted by percentage
descending, used to witness the default-policy theorem. -/
def sampleRecords10 : List KernelRecord :=
  [⟨"K1", "K1", 19⟩, ⟨"K2", "K2", 17⟩, ⟨"K3", "K3", 15⟩, ⟨"K4", "K4", 13⟩,
   ⟨"K5", "K5", 9⟩, ⟨"K6", "K6", 8⟩, ⟨"K7", "K7", 7⟩, ⟨"K8", "K8", 5⟩,
   ⟨"K9", "K9", 4⟩, ⟨"K10", "K10", 3⟩]

/-! ### Arithmetic utility lemmas -/

lemma isTenth_round1 (q : ℚ) : IsTenth (round1 q) := ⟨round (10 * q), rfl⟩

lemma isTenth_add {a b : ℚ} (ha : IsTenth a) (hb : IsTenth b) : IsTenth (a + b) := by
  obtain ⟨x, rfl⟩ := ha
  obtain ⟨y, rfl⟩ := hb
  exact ⟨x + y, by push_cast; ring⟩

lemma isTenth_sub {a b : ℚ} (ha : IsTenth a) (hb : IsTenth b) : IsTenth (a - b) := by
  obtain ⟨x, rfl⟩ := ha
  obtain ⟨y, rfl⟩ := hb
  exact ⟨x - y, by push_cast; ring⟩

lemma isTenth_hundred : IsTenth 100 := ⟨1000, by norm_num⟩

lemma isTenth_sum {l : List ℚ} (h : ∀ q ∈ l, IsTenth q) : IsTenth l.sum := by
  induction l with
  | nil => exact ⟨0, by norm_num⟩
  | cons x xs ih =>
    rw [List.sum_cons]
    exact isTenth_add (h x (List.mem_cons_self x xs))
      (ih (fun q hq => h q (List.mem_cons_of_mem x hq)))

lemma round1_eq_self {q : ℚ} (h : IsTenth q) : round1 q = q := by
  obtain ⟨z, rfl⟩ := h
  unfold round1
  have h10 : (10 : ℚ) * ((z : ℚ) / 10) = (z : ℚ) := by field_simp
  rw [h10, round_intCast]

lemma sum_set (l : List ℚ) (i : Nat) (a : ℚ) (h : i < l.length) :
    (l.set i a).sum = l.sum - l.getD i 0 + a := by
  induction l generalizing i with
  | nil => simp at h
  | cons x xs ih =>
    cases i with
    | zero => simp [List.set]; ring
    | succ n =>
      have hn : n < xs.length := by simpa using h
      simp only [List.set, List.sum_cons, List.getD_cons_succ, ih n hn]
      ring

lemma getD_set_self (l : List ℚ) (i : Nat) (a : ℚ) (h : i < l.length) :
    (l.set i a).getD i 0 = a := by
  induction l generalizing i with
  | nil => simp at h
  | cons x xs ih =>
    cases i with
    | zero => rfl
    | succ n =>
      have hn : n < xs.length := by simpa using h
      simpa [List.set] using ih n hn

lemma getD_set_ne (l : List ℚ) (i j : Nat) (a : ℚ) (h : j ≠ i) :
    (l.set i a).getD j 0 = l.getD j 0 := by
  induction l generalizing i j with
  | nil => simp
  | cons x xs ih =>
    cases i with
    | zero =>
      cases j with
      | zero => exact absurd rfl h
      | succ m => rfl
    | succ n =>
      cases j with
      | zero => rfl
      | succ m => simpa [List.set] using ih n m (fun hc => h (by omega))

lemma rescale_length (sizes : List ℚ) : (rescale sizes).length = sizes.length := by
  simp [rescale]

lemma roundedSizes_length (sizes : List ℚ) :
    (roundedSizes sizes).length = sizes.length := by
  simp [roundedSizes, rescale]

lemma rescale_sum (sizes : List ℚ) (h : sizes.sum ≠ 0) : (rescale sizes).sum = 100 := by
  unfold rescale
  have h2 : (fun s : ℚ => s * 100 / sizes.sum) = fun s : ℚ => s * (100 / sizes.sum) := by
    funext s; ring
  rw [h2]
  have h3 := List.sum_map_mul_right sizes (fun s : ℚ => s) (100 / sizes.sum)
  simp only [List.map_id'] at h3
  rw [h3]
  field_simp

lemma roundedSizes_isTenth (sizes : List ℚ) :
    ∀ q ∈ roundedSizes sizes, IsTenth q := by
  intro q hq
  obtain ⟨p, _, rfl⟩ := List.mem_map.mp hq
  exact isTenth_round1 p

/-! ### Maximum-index lemmas (Python's `sizes.index(max(sizes))`) -/

lemma foldl_max_eq_or_mem (xs : List ℚ) (x : ℚ) :
    xs.foldl max x = x ∨ xs.foldl max x ∈ xs := by
  induction xs generalizing x with
  | nil => exact Or.inl rfl
  | cons y ys ih =>
    have hfold : (y :: ys).foldl max x = ys.foldl max (max x y) := rfl
    rcases ih (max x y) with h | h
    · rcases le_total x y with hle | hle
      · have hy : (y :: ys).foldl max x = y := by rw [hfold, h, max_eq_right hle]
        rw [hy]
        exact Or.inr (List.mem_cons_self y ys)
      · have hx : (y :: ys).foldl max x = x := by rw [hfold, h, max_eq_left hle]
        exact Or.inl hx
    · rw [hfold]
      exact Or.inr (List.mem_cons_of_mem y h)

lemma listMax_mem {l : List ℚ} (h : l ≠ []) : listMax l ∈ l := by
  cases l with
  | nil => exact absurd rfl h
  | cons x xs =>
    have hl : listMax (x :: xs) = xs.foldl max x := rfl
    rcases foldl_max_eq_or_mem xs x with he | he
    · rw [hl, he]
      exact List.mem_cons_self x xs
    · rw [hl]
      exact List.mem_cons_of_mem x he

lemma le_foldl_max (xs : List ℚ) (x : ℚ) :
    x ≤ xs.foldl max x ∧ ∀ a ∈ xs, a ≤ xs.foldl max x := by
  induction xs generalizing x with
  | nil => exact ⟨le_refl x, by simp⟩
  | cons y ys ih =>
    obtain ⟨h1, h2⟩ := ih (max x y)
    refine ⟨le_trans (le_max_left x y) h1, ?_⟩
    intro a ha
    rcases List.mem_cons.mp ha with rfl | ha
    · exact le_trans (le_max_right x a) h1
    · exact h2 a ha

lemma le_listMax {l : List ℚ} : ∀ a ∈ l, a ≤ listMax l := by
  cases l with
  | nil => simp
  | cons x xs =>
    intro a ha
    unfold listMax
    rcases List.mem_cons.mp ha with rfl | ha
    · exact (le_foldl_max xs a).1
    · exact (le_foldl_max xs x).2 a ha

lemma firstIdxOf_lt_length {v : ℚ} {l : List ℚ} (h : v ∈ l) :
    firstIdxOf v l < l.length := by
  induction l with
  | nil => simp at h
  | cons x xs ih =>
    by_cases hx : x = v
    · simp [firstIdxOf, hx]
    · rcases List.mem_cons.mp h with rfl | h2
      · exact absurd rfl hx
      · simpa [firstIdxOf, hx] using ih h2

lemma getD_firstIdxOf {v : ℚ} {l : List ℚ} (h : v ∈ l) :
    l.getD (firstIdxOf v l) 0 = v := by
  induction l with
  | nil => simp at h
  | cons x xs ih =>
    by_cases hx : x = v
    · simp [firstIdxOf, hx]
    · rcases List.mem_cons.mp h with rfl | h2
      · exact absurd rfl hx
      · simpa [firstIdxOf, hx] using ih h2

lemma firstIdxOf_first {v : ℚ} {l : List ℚ} (j : Nat) (hj : j < firstIdxOf v l) :
    l.getD j 0 ≠ v := by
  induction l generalizing j with
  | nil => simp [firstIdxOf] at hj
  | cons x xs ih =>
    by_cases hx : x = v
    · simp [firstIdxOf, hx] at hj
    · cases j with
      | zero => simpa using hx
      | succ m =>
        have : m < firstIdxOf v xs := by
          simp only [firstIdxOf, hx, if_false] at hj
          omega
        simpa using ih m this

lemma indexOfMax_lt_length {l : List ℚ} (h : l ≠ []) : indexOfMax l < l.length :=
  firstIdxOf_lt_length (listMax_mem h)

lemma getD_indexOfMax {l : List ℚ} (h : l ≠ []) :
    l.getD (indexOfMax l) 0 = listMax l :=
  getD_firstIdxOf (listMax_mem h)

lemma indexOfMax_first {l : List ℚ} (j : Nat) (hj : j < indexOfMax l) :
    l.getD j 0 ≠ listMax l :=
  firstIdxOf_first j hj

/-! ### Normalization core -/

/-- The corrected entry of the drift-correction branch is exactly one
decimal, so its re-rounding is the identity and the corrected list
sums to exactly `100`. -/
lemma normalize_ok_core (sizes : List ℚ) (hne : sizes ≠ []) (ht : sizes.sum ≠ 0) :
    ∃ out, normalizeSizes sizes = .ok out ∧ |out.sum - 100| ≤ 1/20 ∧
      (|sizes.sum - 100| ≤ 1/100 → out = sizes) ∧
      (¬ |sizes.sum - 100| ≤ 1/100 →
        out = roundedSizes sizes ∨
        out = (roundedSizes sizes).set (indexOfMax sizes)
            ((roundedSizes sizes).getD (indexOfMax sizes) 0
              + (100 - (roundedSizes sizes).sum))) := by
  have hempty : sizes.isEmpty = false := by
    cases sizes with
    | nil => exact absurd rfl hne
    | cons x xs => rfl
  by_cases h1 : |sizes.sum - 100| ≤ 1/100
  · refine ⟨sizes, ?_, ?_, fun _ => rfl, fun hc => absurd h1 hc⟩
    · unfold normalizeSizes
      rw [if_pos h1]
    · exact le_trans h1 (by norm_num)
  · by_cases h2 : |(roundedSizes sizes).sum - 100| ≤ 1/20
    · refine ⟨roundedSizes sizes, ?_, h2, fun hc => absurd hc h1, fun _ => Or.inl rfl⟩
      unfold normalizeSizes
      rw [if_neg h1, if_neg (by simp [hempty]), if_neg ht, if_pos h2]
    · have hidx : indexOfMax sizes < (roundedSizes sizes).length := by
        rw [roundedSizes_length]
        exact indexOfMax_lt_length hne
      have hmem : (roundedSizes sizes).getD (indexOfMax sizes) 0 ∈ roundedSizes sizes := by
        rw [List.getD_eq_getElem _ _ hidx]
        exact List.getElem_mem hidx
      have tEntry : IsTenth ((roundedSizes sizes).getD (indexOfMax sizes) 0) :=
        roundedSizes_isTenth sizes _ hmem
      have tSum : IsTenth (roundedSizes sizes).sum :=
        isTenth_sum (roundedSizes_isTenth sizes)
      have tNew : IsTenth ((roundedSizes sizes).getD (indexOfMax sizes) 0
          + (100 - (roundedSizes sizes).sum)) :=
        isTenth_add tEntry (isTenth_sub isTenth_hundred tSum)
      have hround := round1_eq_self tNew
      refine ⟨(roundedSizes sizes).set (indexOfMax sizes)
          ((roundedSizes sizes).getD (indexOfMax sizes) 0
            + (100 - (roundedSizes sizes).sum)), ?_, ?_, fun hc => absurd hc h1,
          fun _ => Or.inr rfl⟩
      · unfold normalizeSizes
        rw [if_neg h1, if_neg (by simp [hempty]), if_neg ht, if_neg h2, hround]
      · rw [sum_set _ _ _ hidx]
        have hs : (roundedSizes sizes).sum - (roundedSizes sizes).getD (indexOfMax sizes) 0
            + ((roundedSizes sizes).getD (indexOfMax sizes) 0
              + (100 - (roundedSizes sizes).sum)) = 100 := by ring
        rw [hs]
        norm_num

/-! ### Color-resolution lemmas -/

lemma get_academic_colors_length (n : Nat) : (get_academic_colors n).length = n := by
  unfold get_academic_colors
  by_cases h : n ≤ palette.length
  · rw [if_pos h]
    simp [List.length_take, Nat.min_eq_left h]
  · rw [if_neg h]
    simp

lemma get_academic_colors_get? (n i : Nat) (h : i < n) :
    (get_academic_colors n).get? i =
      some (if n ≤ 10 then Color.named (palette.getD i "") else Color.ramp i n) := by
  have hpal : palette.length = 10 := rfl
  unfold get_academic_colors
  rw [List.get?_eq_getElem?, hpal]
  by_cases hn : n ≤ 10
  · rw [if_pos hn, if_pos hn, List.getElem?_map, List.getElem?_take_of_lt h]
    have hi : i < palette.length := by omega
    rw [List.getElem?_eq_getElem hi, List.getD_eq_getElem palette "" hi]
    rfl
  · rw [if_neg hn, if_neg hn, List.getElem?_map, List.getElem?_range h]
    rfl

lemma resolve_colors_length (colors : List (Option Color)) :
    (resolve_colors colors).length = colors.length := by
  simp [resolve_colors]

lemma resolve_colors_getD (colors : List (Option Color)) (i : Nat)
    (h : i < colors.length) :
    (resolve_colors colors).getD i none =
      (match colors.getD i none with
       | some c => some c
       | none => some (if colors.length ≤ 10 then Color.named (palette.getD i "")
                       else Color.ramp i colors.length)) := by
  unfold resolve_colors
  have hstep : ((List.range colors.length).map (fun i =>
      match colors.getD i none with
      | some c => some c
      | none => (get_academic_colors colors.length).get? i))[i]? =
      some (match colors.getD i none with
            | some c => some c
            | none => (get_academic_colors colors.length).get? i) := by
    rw [List.getElem?_map, List.getElem?_range h]
    rfl
  rw [List.getD, List.get?_eq_getElem?, hstep]
  cases hc : colors.getD i none with
  | some c => rfl
  | none =>
    simp only [Option.getD_some]
    rw [get_academic_colors_get? colors.length i h]

/-! ### Stable-sort lemmas for the bar renderer -/

lemma slotGE_iff (a b : DSlot) : slotGE a b ↔ b.value ≤ a.value := Iff.rfl

lemma slotsWithValue_orderedInsert (v : ℚ) (x : DSlot) (l : List DSlot) :
    slotsWithValue v (List.orderedInsert slotGE x l)
      = if x.value = v then x :: slotsWithValue v l else slotsWithValue v l := by
  induction l with
  | nil =>
    simp only [List.orderedInsert]
    by_cases hx : x.value = v <;> simp [slotsWithValue, hx]
  | cons y ys ih =>
    simp only [List.orderedInsert]
    by_cases hr : slotGE x y
    · rw [if_pos hr]
      by_cases hx : x.value = v <;> simp [slotsWithValue, hx]
    · rw [if_neg hr]
      have hr' : ¬ (y.value ≤ x.value) := hr
      by_cases hyv : y.value = v
      · have hxv : ¬ x.value = v := by
          intro hc
          exact hr' ((hyv.trans hc.symm).le)
        rw [if_neg hxv]
        have ihv := ih
        rw [if_neg hxv] at ihv
        simp only [slotsWithValue, List.filter_cons] at ihv ⊢
        simp [hyv, ihv]
      · by_cases hx : x.value = v
        · rw [if_pos hx]
          have ihv := ih
          rw [if_pos hx] at ihv
          simp only [slotsWithValue, List.filter_cons] at ihv ⊢
          simp [hyv, ihv]
        · rw [if_neg hx]
          have ihv := ih
          rw [if_neg hx] at ihv
          simp only [slotsWithValue, List.filter_cons] at ihv ⊢
          simp [hyv, ihv]

lemma slotsWithValue_insertionSort (v : ℚ) (l : List DSlot) :
    slotsWithValue v (List.insertionSort slotGE l) = slotsWithValue v l := by
  induction l with
  | nil => rfl
  | cons x xs ih =>
    simp only [List.insertionSort]
    rw [slotsWithValue_orderedInsert, ih]
    by_cases hx : x.value = v
    · rw [if_pos hx]
      simp [slotsWithValue, List.filter_cons, hx]
    · rw [if_neg hx]
      simp [slotsWithValue, List.filter_cons, hx]

/-! ### Claim theorems -/

/-- C10: the rescaling step divides by the sum of slot values with no
guard: a non-empty, all-zero slot list (permitted by the data model)
is produced by directive processing from a zero-percentage kernel, and
the division-by-zero error branch of the total embedding of
normalization is reached on it, both directly and through the full
`prepare_display_data` pipeline. -/
theorem claim_C10_division_by_zero_reachable :
    normalizeSizes [0, 0] = .error .divByZero ∧
    (selectSlots [⟨"A", "A", 0⟩] [.individual "A" none none]).sizes = [0] ∧
    prepare_display_data [⟨"A", "A", 0⟩] [.individual "A" none none]
      = .error .divByZero := by
  have hsel : selectSlots [⟨"A", "A", 0⟩] [.individual "A" none none]
      = ⟨["A"], [0], [none], ["A"]⟩ := by
    simp [selectSlots, processItem, lookupRecord]
  have hnorm1 : normalizeSizes [(0 : ℚ)] = .error .divByZero := by
    norm_num [normalizeSizes]
  have hnorm2 : normalizeSizes [(0 : ℚ), 0] = .error .divByZero := by
    norm_num [normalizeSizes]
  refine ⟨hnorm2, ?_, ?_⟩
  · rw [hsel]
  · unfold prepare_display_data
    dsimp only
    rw [hsel]
    dsimp only
    rw [hnorm1]

/-- C2 counterexample: with records `A=60, B=40` and directives
`[individual A, others, others]`, the first `others` directive emits a
slot over kernel `B` but `B` is never marked consumed, so the second
`others` directive emits a duplicate slot over the same kernel — the
claim that every kernel in an emitted others slot is marked consumed
and excluded from later others directives is false. -/
theorem claim_C2_counterexample :
    (selectSlots [⟨"A", "A", 60⟩, ⟨"B", "B", 40⟩]
      [.individual "A" none none, .others true none none,
       .others true none none]).sizes = [60, 40, 40] ∧
    ¬ "B" ∈ (selectSlots [⟨"A", "A", 60⟩, ⟨"B", "B", 40⟩]
      [.individual "A" none none, .others true none none,
       .others true none none]).used := by
  have h1 : processItem [⟨"A", "A", 60⟩, ⟨"B", "B", 40⟩] ⟨[], [], [], []⟩
      (.individual "A" none none) = ⟨["A"], [60], [none], ["A"]⟩ := by
    simp [processItem, lookupRecord]
  have h2 : processItem [⟨"A", "A", 60⟩, ⟨"B", "B", 40⟩] ⟨["A"], [60], [none], ["A"]⟩
      (.others true none none)
      = ⟨["A", othersLabel 1], [60, 40], [none, none], ["A"]⟩ := by
    simp [processItem]
  have h3 : processItem [⟨"A", "A", 60⟩, ⟨"B", "B", 40⟩]
      ⟨["A", othersLabel 1], [60, 40], [none, none], ["A"]⟩
      (.others true none none)
      = ⟨["A", othersLabel 1, othersLabel 1], [60, 40, 40],
         [none, none, none], ["A"]⟩ := by
    simp [processItem]
  have hsel : selectSlots [⟨"A", "A", 60⟩, ⟨"B", "B", 40⟩]
      [.individual "A" none none, .others true none none, .others true none none]
      = ⟨["A", othersLabel 1, othersLabel 1], [60, 40, 40],
         [none, none, none], ["A"]⟩ := by
    unfold selectSlots
    rw [List.foldl_cons, h1, List.foldl_cons, h2, List.foldl_cons, h3, List.foldl_nil]
  rw [hsel]
  refine ⟨rfl, ?_⟩
  simp

/-- C2 (amended): an `others` directive never changes the consumed
set, whatever slot it emits, so its remaining kernels stay available
to every later `others` directive and still appear in the post-hoc
unused-kernel diagnostic. -/
theorem claim_C2_others_marks_nothing_consumed (df : List KernelRecord)
    (st : SelState) (b : Bool) (dn : Option String) (c : Option Color) :
    (processItem df st (.others b dn c)).used = st.used ∧
    unused_kernels df (processItem df st (.others b dn c))
      = unused_kernels df st := by
  have hused : (processItem df st (.others b dn c)).used = st.used := by
    unfold processItem
    cases b with
    | false => rfl
    | true =>
      dsimp only
      split
      · split
        · rfl
        · rfl
      · rename_i h
        exact absurd rfl h
  refine ⟨hused, ?_⟩
  unfold unused_kernels
  rw [hused]

/-- C3: with one record and a single directive naming an unknown
kernel, selection yields zero slots and the run dies inside the
normalization block (Python: `ValueError` from `max(sizes)` on the
empty list) instead of reaching the "No data to display" report of
`create_academic_bar_chart`. -/
theorem claim_C3_zero_slots_crash_before_report :
    create_academic_bar_chart [⟨"A", "A", 10⟩]
      [.individual "Missing" none none] = .error .emptyMax ∧
    create_academic_bar_chart [⟨"A", "A", 10⟩]
      [.individual "Missing" none none] ≠ .ok .noData := by
  have hsel : selectSlots [⟨"A", "A", 10⟩] [.individual "Missing" none none]
      = ⟨[], [], [], []⟩ := by
    simp [selectSlots, processItem, lookupRecord]
  have hnorm : normalizeSizes ([] : List ℚ) = .error .emptyMax := by
    norm_num [normalizeSizes]
  have hprep : prepare_display_data [⟨"A", "A", 10⟩]
      [.individual "Missing" none none] = .error .emptyMax := by
    unfold prepare_display_data
    dsimp only
    rw [hsel]
    dsimp only
    rw [hnorm]
  have h : create_academic_bar_chart [⟨"A", "A", 10⟩]
      [.individual "Missing" none none] = .error .emptyMax := by
    unfold create_academic_bar_chart
    rw [hprep]
  refine ⟨h, ?_⟩
  rw [h]
  simp

/-- C1 counterexample: three records `A=B=C=10` with no directives hit
the fallback path, which returns at once without normalization: the
bar chart receives the raw values `[10, 10, 10]`, whose sum `30` is
not within `0.05` of `100` (the spec scenario expects `33.4/33.3/33.3`
summing to exactly `100`). -/
theorem claim_C1_counterexample :
    outcomeValues (create_academic_bar_chart
      [⟨"A", "A", 10⟩, ⟨"B", "B", 10⟩, ⟨"C", "C", 10⟩] []) = some [10, 10, 10] ∧
    ¬ |([(10 : ℚ), 10, 10].sum) - 100| ≤ 1/20 := by
  have hfb : fallbackDisplay [⟨"A", "A", 10⟩, ⟨"B", "B", 10⟩, ⟨"C", "C", 10⟩]
      = (["A", "B", "C"], [10, 10, 10], (get_academic_colors 3).map some) := by
    simp [fallbackDisplay]
  have hprep : prepare_display_data
      [⟨"A", "A", 10⟩, ⟨"B", "B", 10⟩, ⟨"C", "C", 10⟩] []
      = .ok (["A", "B", "C"], [10, 10, 10], (get_academic_colors 3).map some) := by
    unfold prepare_display_data
    rw [hfb]
  have hcols : (get_academic_colors 3).map some
      = [some (Color.named "#4E79A7"), some (Color.named "#F28E2B"),
         some (Color.named "#E15759")] := by
    simp [get_academic_colors, palette]
  have hfc : finalColors ["A", "B", "C"]
      [some (Color.named "#4E79A7"), some (Color.named "#F28E2B"),
       some (Color.named "#E15759")]
      = [some (Color.named "#4E79A7"), some (Color.named "#F28E2B"),
         some (Color.named "#E15759")] := by
    simp [finalColors]
  have hzip : zipSlots ["A", "B", "C"] [10, 10, 10]
      [some (Color.named "#4E79A7"), some (Color.named "#F28E2B"),
       some (Color.named "#E15759")]
      = [⟨"A", 10, some (Color.named "#4E79A7")⟩,
         ⟨"B", 10, some (Color.named "#F28E2B")⟩,
         ⟨"C", 10, some (Color.named "#E15759")⟩] := by
    simp [zipSlots]
  have hsort : bar_render_order
      [⟨"A", 10, some (Color.named "#4E79A7")⟩,
       ⟨"B", 10, some (Color.named "#F28E2B")⟩,
       ⟨"C", 10, some (Color.named "#E15759")⟩]
      = [⟨"A", 10, some (Color.named "#4E79A7")⟩,
         ⟨"B", 10, some (Color.named "#F28E2B")⟩,
         ⟨"C", 10, some (Color.named "#E15759")⟩] := by
    simp [bar_render_order, List.insertionSort, List.orderedInsert, slotGE]
  have hchart : create_academic_bar_chart
      [⟨"A", "A", 10⟩, ⟨"B", "B", 10⟩, ⟨"C", "C", 10⟩] []
      = .ok (.chart
        [⟨"A", 10, some (Color.named "#4E79A7")⟩,
         ⟨"B", 10, some (Color.named "#F28E2B")⟩,
         ⟨"C", 10, some (Color.named "#E15759")⟩]) := by
    unfold create_academic_bar_chart
    rw [hprep]
    dsimp only
    rw [if_neg (by simp), hcols, hfc, hzip, hsort]
  refine ⟨?_, by norm_num⟩
  rw [hchart]
  simp [outcomeValues]

/-- C1 (amended): on the directive path — a non-empty directive list
whose selection yields at least one slot with nonzero value total —
the value sequence handed to the renderer sums to `100` within `0.05`
absolute tolerance. -/
theorem claim_C1_directive_path_sums_to_100 (df : List KernelRecord)
    (items : List Directive) (hitems : items ≠ [])
    (hslots : (selectSlots df items).sizes ≠ [])
    (htot : (selectSlots df items).sizes.sum ≠ 0) :
    ∃ labels sizes colors,
      prepare_display_data df items = .ok (labels, sizes, colors) ∧
      |sizes.sum - 100| ≤ 1/20 := by
  cases items with
  | nil => exact absurd rfl hitems
  | cons d ds =>
    obtain ⟨out, hok, hb, -, -⟩ := normalize_ok_core _ hslots htot
    refine ⟨(selectSlots df (d :: ds)).labels, out,
      resolve_colors (selectSlots df (d :: ds)).colors, ?_, hb⟩
    unfold prepare_display_data
    dsimp only
    rw [hok]

/-- C1 witness: records `A=B=C=10` selected by three individual
directives are normalized to `33.4/33.3/33.3`, summing to `100`
within tolerance. -/
theorem claim_C1_witness :
    ∃ labels sizes colors,
      prepare_display_data [⟨"A", "A", 10⟩, ⟨"B", "B", 10⟩, ⟨"C", "C", 10⟩]
        [.individual "A" none none, .individual "B" none none,
         .individual "C" none none] = .ok (labels, sizes, colors) ∧
      |sizes.sum - 100| ≤ 1/20 := by
  have h1 : processItem [⟨"A", "A", 10⟩, ⟨"B", "B", 10⟩, ⟨"C", "C", 10⟩]
      ⟨[], [], [], []⟩ (.individual "A" none none)
      = ⟨["A"], [10], [none], ["A"]⟩ := by
    simp [processItem, lookupRecord]
  have h2 : processItem [⟨"A", "A", 10⟩, ⟨"B", "B", 10⟩, ⟨"C", "C", 10⟩]
      ⟨["A"], [10], [none], ["A"]⟩ (.individual "B" none none)
      = ⟨["A", "B"], [10, 10], [none, none], ["B", "A"]⟩ := by
    simp [processItem, lookupRecord]
  have h3 : processItem [⟨"A", "A", 10⟩, ⟨"B", "B", 10⟩, ⟨"C", "C", 10⟩]
      ⟨["A", "B"], [10, 10], [none, none], ["B", "A"]⟩ (.individual "C" none none)
      = ⟨["A", "B", "C"], [10, 10, 10], [none, none, none], ["C", "B", "A"]⟩ := by
    simp [processItem, lookupRecord]
  have hsel : selectSlots [⟨"A", "A", 10⟩, ⟨"B", "B", 10⟩, ⟨"C", "C", 10⟩]
      [.individual "A" none none, .individual "B" none none,
       .individual "C" none none]
      = ⟨["A", "B", "C"], [10, 10, 10], [none, none, none], ["C", "B", "A"]⟩ := by
    unfold selectSlots
    rw [List.foldl_cons, h1, List.foldl_cons, h2, List.foldl_cons, h3, List.foldl_nil]
  exact claim_C1_directive_path_sums_to_100
    [⟨"A", "A", 10⟩, ⟨"B", "B", 10⟩, ⟨"C", "C", 10⟩]
    [.individual "A" none none, .individual "B" none none,
     .individual "C" none none]
    (by simp)
    (by rw [hsel]; simp)
    (by rw [hsel]; norm_num)

/-- C4 counterexample: with records `A=60, B=40` selected as
`[individual B, individual A]`, the pie renderer consumes the value
sequence `[40, 60]` in emission order, which is not descending — the
claim that the value-descending ordering holds for the slot sequence
consumed by both renderers is false for the pie renderer. -/
theorem claim_C4_counterexample :
    outcomeValues (create_academic_pie_chart [⟨"A", "A", 60⟩, ⟨"B", "B", 40⟩]
      [.individual "B" none none, .individual "A" none none]) = some [40, 60] ∧
    ¬ List.Pairwise (fun a b : ℚ => b ≤ a) [(40 : ℚ), 60] := by
  have h1 : processItem [⟨"A", "A", 60⟩, ⟨"B", "B", 40⟩] ⟨[], [], [], []⟩
      (.individual "B" none none) = ⟨["B"], [40], [none], ["B"]⟩ := by
    simp [processItem, lookupRecord]
  have h2 : processItem [⟨"A", "A", 60⟩, ⟨"B", "B", 40⟩]
      ⟨["B"], [40], [none], ["B"]⟩ (.individual "A" none none)
      = ⟨["B", "A"], [40, 60], [none, none], ["A", "B"]⟩ := by
    simp [processItem, lookupRecord]
  have hsel : selectSlots [⟨"A", "A", 60⟩, ⟨"B", "B", 40⟩]
      [.individual "B" none none, .individual "A" none none]
      = ⟨["B", "A"], [40, 60], [none, none], ["A", "B"]⟩ := by
    unfold selectSlots
    rw [List.foldl_cons, h1, List.foldl_cons, h2, List.foldl_nil]
  have hnorm : normalizeSizes [(40 : ℚ), 60] = .ok [40, 60] := by
    norm_num [normalizeSizes]
  have hres : resolve_colors [none, none]
      = [some (Color.named "#4E79A7"), some (Color.named "#F28E2B")] := by
    simp [resolve_colors, get_academic_colors, palette, List.range_succ]
  have hprep : prepare_display_data [⟨"A", "A", 60⟩, ⟨"B", "B", 40⟩]
      [.individual "B" none none, .individual "A" none none]
      = .ok (["B", "A"], [40, 60],
        [some (Color.named "#4E79A7"), some (Color.named "#F28E2B")]) := by
    unfold prepare_display_data
    dsimp only
    rw [hsel]
    dsimp only
    rw [hnorm]
    dsimp only
    rw [hres]
  have hfc : finalColors ["B", "A"]
      [some (Color.named "#4E79A7"), some (Color.named "#F28E2B")]
      = [some (Color.named "#4E79A7"), some (Color.named "#F28E2B")] := by
    simp [finalColors]
  have hzip : zipSlots ["B", "A"] [40, 60]
      [some (Color.named "#4E79A7"), some (Color.named "#F28E2B")]
      = [⟨"B", 40, some (Color.named "#4E79A7")⟩,
         ⟨"A", 60, some (Color.named "#F28E2B")⟩] := by
    simp [zipSlots]
  have hpie : create_academic_pie_chart [⟨"A", "A", 60⟩, ⟨"B", "B", 40⟩]
      [.individual "B" none none, .individual "A" none none]
      = .ok (.chart [⟨"B", 40, some (Color.named "#4E79A7")⟩,
                     ⟨"A", 60, some (Color.named "#F28E2B")⟩]) := by
    unfold create_academic_pie_chart
    rw [hprep]
    dsimp only
    rw [if_neg (by simp), hfc, hzip]
    rfl
  refine ⟨?_, ?_⟩
  · rw [hpie]
    simp [outcomeValues]
  · norm_num [List.pairwise_cons]

/-- C4 (amended): the bar renderer's pre-render slot sequence is
sorted descending by value (stably: for every value, the slots
carrying it keep their original relative emission order, and the
whole sequence is a permutation of the emitted one), while the pie
renderer consumes the slot sequence in emission order without any
re-sorting. -/
theorem claim_C4_bar_sorted_stably_pie_in_emission_order (slots : List DSlot) :
    List.Pairwise slotGE (bar_render_order slots) ∧
    (∀ v : ℚ, slotsWithValue v (bar_render_order slots) = slotsWithValue v slots) ∧
    (bar_render_order slots).Perm slots ∧
    pie_render_order slots = slots :=
  ⟨List.sorted_insertionSort slotGE slots,
   fun v => slotsWithValue_insertionSort v slots,
   List.perm_insertionSort slotGE slots, rfl⟩

/-- C5 counterexample: a single kernel with percentage `0` is selected
into the non-empty all-zero slot list `[0]`, on which normalization
does not yield values summing to `100` — it takes the
division-by-zero error branch (Python: `ZeroDivisionError`). -/
theorem claim_C5_counterexample :
    (selectSlots [⟨"Z", "Z", 0⟩] [.individual "Z" none none]).sizes = [0] ∧
    normalizeSizes [(0 : ℚ)] = .error .divByZero := by
  have hsel : selectSlots [⟨"Z", "Z", 0⟩] [.individual "Z" none none]
      = ⟨["Z"], [0], [none], ["Z"]⟩ := by
    simp [selectSlots, processItem, lookupRecord]
  refine ⟨?_, ?_⟩
  · rw [hsel]
  · norm_num [normalizeSizes]

/-- C5 (amended): for every non-empty slot list with nonzero value
total, normalization succeeds with values summing to `100` within
`0.05`: either the original total is within `0.01` of `100` and the
values are kept, or every value is rescaled by `100/total` and
rounded to one decimal, the result corrected when the rounded total
drifts beyond `0.05`. -/
theorem claim_C5_normalize_within_tolerance (sizes : List ℚ)
    (hne : sizes ≠ []) (ht : sizes.sum ≠ 0) :
    ∃ out, normalizeSizes sizes = .ok out ∧ |out.sum - 100| ≤ 1/20 ∧
      (|sizes.sum - 100| ≤ 1/100 → out = sizes) ∧
      (¬ |sizes.sum - 100| ≤ 1/100 →
        out = roundedSizes sizes ∨
        out = (roundedSizes sizes).set (indexOfMax sizes)
            ((roundedSizes sizes).getD (indexOfMax sizes) 0
              + (100 - (roundedSizes sizes).sum))) :=
  normalize_ok_core sizes hne ht

/-- C5 witness: the slot list `[10, 10, 10]` (total `30`) is
normalized successfully with the final sum within tolerance. -/
theorem claim_C5_witness :
    ∃ out, normalizeSizes [(10 : ℚ), 10, 10] = .ok out ∧
      |out.sum - 100| ≤ 1/20 ∧
      (|([(10 : ℚ), 10, 10].sum) - 100| ≤ 1/100 → out = [(10 : ℚ), 10, 10]) ∧
      (¬ |([(10 : ℚ), 10, 10].sum) - 100| ≤ 1/100 →
        out = roundedSizes [(10 : ℚ), 10, 10] ∨
        out = (roundedSizes [(10 : ℚ), 10, 10]).set (indexOfMax [(10 : ℚ), 10, 10])
            ((roundedSizes [(10 : ℚ), 10, 10]).getD (indexOfMax [(10 : ℚ), 10, 10]) 0
              + (100 - (roundedSizes [(10 : ℚ), 10, 10]).sum))) :=
  claim_C5_normalize_within_tolerance [10, 10, 10] (by simp) (by norm_num)

/-- C6: when the rounded total drifts from `100` by more than `0.05`,
the difference `100 - rounded_total` is added to exactly one slot —
the one at the first index of the maximum pre-rounding original
value — whose re-rounding is the identity (the correction is an exact
number of tenths), every other slot keeps its rounded value, and the
corrected list sums to exactly `100`. -/
theorem claim_C6_drift_correction (sizes : List ℚ) (hne : sizes ≠ [])
    (ht : sizes.sum ≠ 0) (hfar : ¬ |sizes.sum - 100| ≤ 1/100)
    (hdrift : ¬ |(roundedSizes sizes).sum - 100| ≤ 1/20) :
    ∃ out, normalizeSizes sizes = .ok out ∧
      out.length = sizes.length ∧
      out.getD (indexOfMax sizes) 0
        = (roundedSizes sizes).getD (indexOfMax sizes) 0
          + (100 - (roundedSizes sizes).sum) ∧
      (∀ j, j ≠ indexOfMax sizes → out.getD j 0 = (roundedSizes sizes).getD j 0) ∧
      out.sum = 100 ∧
      sizes.getD (indexOfMax sizes) 0 = listMax sizes ∧
      (∀ j, j < indexOfMax sizes → sizes.getD j 0 ≠ listMax sizes) := by
  have hempty : sizes.isEmpty = false := by
    cases sizes with
    | nil => exact absurd rfl hne
    | cons x xs => rfl
  have hidx : indexOfMax sizes < (roundedSizes sizes).length := by
    rw [roundedSizes_length]
    exact indexOfMax_lt_length hne
  have hmem : (roundedSizes sizes).getD (indexOfMax sizes) 0 ∈ roundedSizes sizes := by
    rw [List.getD_eq_getElem _ _ hidx]
    exact List.getElem_mem hidx
  have tNew : IsTenth ((roundedSizes sizes).getD (indexOfMax sizes) 0
      + (100 - (roundedSizes sizes).sum)) :=
    isTenth_add (roundedSizes_isTenth sizes _ hmem)
      (isTenth_sub isTenth_hundred (isTenth_sum (roundedSizes_isTenth sizes)))
  have hround := round1_eq_self tNew
  refine ⟨(roundedSizes sizes).set (indexOfMax sizes)
      ((roundedSizes sizes).getD (indexOfMax sizes) 0
        + (100 - (roundedSizes sizes).sum)), ?_, ?_, ?_, ?_, ?_, ?_, ?_⟩
  · unfold normalizeSizes
    rw [if_neg hfar, if_neg (by simp [hempty]), if_neg ht, if_neg hdrift, hround]
  · rw [List.length_set, roundedSizes_length]
  · exact getD_set_self _ _ _ hidx
  · intro j hj
    exact getD_set_ne _ _ _ _ hj
  · rw [sum_set _ _ _ hidx]
    ring
  · exact getD_indexOfMax hne
  · intro j hj
    exact indexOfMax_first j hj

/-- C6 witness: on `[10, 10, 10]` the rounded rescaled values
`[33.3, 33.3, 33.3]` sum to `99.9`, drifting by `0.1`; the first slot
(index of the pre-rounding maximum) absorbs the difference and the
corrected list sums to exactly `100`. -/
theorem claim_C6_witness :
    ∃ out, normalizeSizes [(10 : ℚ), 10, 10] = .ok out ∧
      out.length = [(10 : ℚ), 10, 10].length ∧
      out.getD (indexOfMax [(10 : ℚ), 10, 10]) 0
        = (roundedSizes [(10 : ℚ), 10, 10]).getD (indexOfMax [(10 : ℚ), 10, 10]) 0
          + (100 - (roundedSizes [(10 : ℚ), 10, 10]).sum) ∧
      (∀ j, j ≠ indexOfMax [(10 : ℚ), 10, 10] →
        out.getD j 0 = (roundedSizes [(10 : ℚ), 10, 10]).getD j 0) ∧
      out.sum = 100 ∧
      [(10 : ℚ), 10, 10].getD (indexOfMax [(10 : ℚ), 10, 10]) 0
        = listMax [(10 : ℚ), 10, 10] ∧
      (∀ j, j < indexOfMax [(10 : ℚ), 10, 10] →
        [(10 : ℚ), 10, 10].getD j 0 ≠ listMax [(10 : ℚ), 10, 10]) :=
  claim_C6_drift_correction [10, 10, 10] (by simp) (by norm_num) (by norm_num)
    (by norm_num [roundedSizes, rescale, round1, round_eq, abs_le])

/-- C7: with no directives, the fallback returns the first 8 rows of
the percentage-descending dataframe as individual slots and, exactly
when more than 8 rows exist, appends one `Others (<count>)` slot whose
value is the sum of the remaining raw percentages; the retained rows
dominate the remaining ones, so they are the top 8 by percentage. -/
theorem claim_C7_default_policy (df : List KernelRecord)
    (hsorted : df.Pairwise (fun a b => b.percentage ≤ a.percentage)) :
    (fallbackDisplay df).1.length
        = min df.length 8 + (if 8 < df.length then 1 else 0) ∧
    (8 < df.length →
      (fallbackDisplay df).1
          = (df.take 8).map (fun r => r.displayName)
            ++ [othersLabel (df.length - 8)] ∧
      (fallbackDisplay df).2.1
          = (df.take 8).map (fun r => r.percentage)
            ++ [((df.drop 8).map (fun r => r.percentage)).sum] ∧
      ∀ r ∈ df.drop 8, ∀ s ∈ df.take 8, r.percentage ≤ s.percentage) ∧
    (df.length ≤ 8 →
      (fallbackDisplay df).1 = df.map (fun r => r.displayName) ∧
      (fallbackDisplay df).2.1 = df.map (fun r => r.percentage)) := by
  have hsp : List.Pairwise (fun a b => b.percentage ≤ a.percentage)
      (df.take 8 ++ df.drop 8) := by
    rw [List.take_append_drop]
    exact hsorted
  have hdom := (List.pairwise_append.mp hsp).2.2
  unfold fallbackDisplay
  dsimp only
  by_cases h8 : 8 < df.length
  · rw [if_pos h8, if_pos h8, if_pos h8]
    refine ⟨?_, fun _ => ⟨rfl, rfl, fun r hr s hs => hdom s hs r hr⟩,
      fun hle => absurd h8 (not_lt.mpr hle)⟩
    rw [List.length_append, List.length_map, List.length_take]
    simp [Nat.min_comm]
  · rw [if_neg h8, if_neg h8, if_neg h8]
    have hle : df.length ≤ 8 := not_lt.mp h8
    have htake : df.take 8 = df := List.take_of_length_le hle
    refine ⟨?_, fun hgt => absurd hgt h8, fun _ => ⟨?_, ?_⟩⟩
    · rw [htake, List.length_map]
      simp [Nat.min_eq_left hle]
    · rw [htake]
    · rw [htake]

/-- C7 witness: ten sorted records yield exactly nine slots — the top
eight individually plus one `Others (2)` whose value is the sum of the
ninth and tenth percentages. -/
theorem claim_C7_witness :
    (fallbackDisplay sampleRecords10).1.length
        = min sampleRecords10.length 8
          + (if 8 < sampleRecords10.length then 1 else 0) ∧
    (8 < sampleRecords10.length →
      (fallbackDisplay sampleRecords10).1
          = (sampleRecords10.take 8).map (fun r => r.displayName)
            ++ [othersLabel (sampleRecords10.length - 8)] ∧
      (fallbackDisplay sampleRecords10).2.1
          = (sampleRecords10.take 8).map (fun r => r.percentage)
            ++ [((sampleRecords10.drop 8).map (fun r => r.percentage)).sum] ∧
      ∀ r ∈ sampleRecords10.drop 8, ∀ s ∈ sampleRecords10.take 8,
        r.percentage ≤ s.percentage) ∧
    (sampleRecords10.length ≤ 8 →
      (fallbackDisplay sampleRecords10).1
          = sampleRecords10.map (fun r => r.displayName) ∧
      (fallbackDisplay sampleRecords10).2.1
          = sampleRecords10.map (fun r => r.percentage)) :=
  claim_C7_default_policy sampleRecords10 (by decide)

/-- C8: a directive naming an unknown kernel never aborts resolution:
an individual directive whose kernel matches no record leaves the
state unchanged (zero slots, no error — the embedding is total), a
merged directive skips each absent name individually (prepending an
absent name to its kernel list changes nothing), still emitting one
slot whose value is the sum of the found percentages when at least
one name is found, and emitting nothing when none is. -/
theorem claim_C8_lookup_misses_nonfatal (df : List KernelRecord) (st : SelState)
    (k : String) (dn : Option String) (c : Option Color)
    (ks : List String) (dn2 : Option String) (c2 : Option Color)
    (hmiss : lookupRecord df k = none) :
    processItem df st (.individual k dn c) = st ∧
    mergedFound df (k :: ks) = mergedFound df ks ∧
    (mergedFound df ks = [] → processItem df st (.merged ks dn2 c2) = st) ∧
    (mergedFound df ks ≠ [] →
      (processItem df st (.merged ks dn2 c2)).labels
        = st.labels ++ [dn2.getD (mergedLabel (mergedFound df ks).length)] ∧
      (processItem df st (.merged ks dn2 c2)).sizes
        = st.sizes ++ [((mergedFound df ks).map (fun p => p.2)).sum]) := by
  refine ⟨?_, ?_, ?_, ?_⟩
  · unfold processItem
    dsimp only
    rw [hmiss]
  · unfold mergedFound
    rw [List.filterMap_cons]
    rw [show lookupRecord df k = none from hmiss]
    rfl
  · intro hemp
    unfold processItem
    dsimp only
    rw [if_pos (by simp [hemp])]
  · intro hne
    unfold processItem
    dsimp only
    rw [if_neg (by simp [List.isEmpty_iff, hne])]
    exact ⟨rfl, rfl⟩

/-- C8 witness: against a single record `A=10`, an individual
directive for `DoesNotExist` contributes nothing, and a merged
directive over `[DoesNotExist, A]` behaves as one over `[A]`. -/
theorem claim_C8_witness :
    processItem [⟨"A", "A", 10⟩] ⟨[], [], [], []⟩
      (.individual "DoesNotExist" none none) = ⟨[], [], [], []⟩ ∧
    mergedFound [⟨"A", "A", 10⟩] ["DoesNotExist", "A"]
      = mergedFound [⟨"A", "A", 10⟩] ["A"] ∧
    (mergedFound [⟨"A", "A", 10⟩] ["A"] = [] →
      processItem [⟨"A", "A", 10⟩] ⟨[], [], [], []⟩
        (.merged ["A"] none none) = ⟨[], [], [], []⟩) ∧
    (mergedFound [⟨"A", "A", 10⟩] ["A"] ≠ [] →
      (processItem [⟨"A", "A", 10⟩] ⟨[], [], [], []⟩
          (.merged ["A"] none none)).labels
        = (⟨[], [], [], []⟩ : SelState).labels
          ++ [Option.getD none
               (mergedLabel (mergedFound [⟨"A", "A", 10⟩] ["A"]).length)] ∧
      (processItem [⟨"A", "A", 10⟩] ⟨[], [], [], []⟩
          (.merged ["A"] none none)).sizes
        = (⟨[], [], [], []⟩ : SelState).sizes
          ++ [((mergedFound [⟨"A", "A", 10⟩] ["A"]).map (fun p => p.2)).sum]) :=
  claim_C8_lookup_misses_nonfatal [⟨"A", "A", 10⟩] ⟨[], [], [], []⟩
    "DoesNotExist" none none ["A"] none none (by simp [lookupRecord])

/-- C9: after color resolution every slot is non-absent: an explicit
directive color is kept, and an absent color receives the palette
entry at the slot's own positional index when the slot count is at
most 10, or the 20-color categorical ramp sampled at
`index / total_slots` when the count exceeds 10. -/
theorem claim_C9_resolved_colors_positional (colors : List (Option Color))
    (i : Nat) (h : i < colors.length) :
    (resolve_colors colors).length = colors.length ∧
    (resolve_colors colors).getD i none =
      (match colors.getD i none with
       | some c => some c
       | none => some (if colors.length ≤ 10 then Color.named (palette.getD i "")
                       else Color.ramp i colors.length)) ∧
    ((resolve_colors colors).getD i none).isSome = true := by
  refine ⟨resolve_colors_length colors, resolve_colors_getD colors i h, ?_⟩
  rw [resolve_colors_getD colors i h]
  cases colors.getD i none with
  | some c => rfl
  | none => rfl

/-- C9 witness: in `[some "x", none]`, the explicit first color is
kept and the absent second color receives palette entry 1. -/
theorem claim_C9_witness :
    (resolve_colors [some (Color.named "x"), none]).length
        = [some (Color.named "x"), none].length ∧
    (resolve_colors [some (Color.named "x"), none]).getD 1 none =
      (match [some (Color.named "x"), none].getD 1 none with
       | some c => some c
       | none => some (if [some (Color.named "x"), none].length ≤ 10
                       then Color.named (palette.getD 1 "")
                       else Color.ramp 1 [some (Color.named "x"), none].length)) ∧
    ((resolve_colors [some (Color.named "x"), none]).getD 1 none).isSome = true :=
  claim_C9_resolved_colors_positional [some (Color.named "x"), none] 1 (by simp)
